import Mathlib

/-!
Shallow embedding of the core pipeline of `shopify_order_processor.py`
(Shopify Order Processor): the Fulfillment Filter (`filter_by_date_range`),
the Billing Engine (`calculate_costs`), the Order Total Transform
(`transform_cost_df_for_reporting`) and the Invoice Summary
(`create_invoice_summary`).

A DataFrame is modelled as a `List Row`; a missing value (NaN/NaT) is `none`.
Monetary values (Python floats) are modelled as `ℚ`: every claim below only
involves exact assignments, comparisons and sums of tariff values, never
rounding behaviour, so exact arithmetic is a faithful model.
Fulfillment timestamps are modelled as `Option Int`, already parsed and
normalised to day granularity (`pd.to_datetime` parsing of unparseable
strings and timezone stripping are identity on this model).
-/

/-- A line-item row of the order table.  The fields mirror the DataFrame
columns read or written by the core pipeline: `Name`, `Fulfilled at`,
`Lineitem quantity`, `Lineitem name`, `Lineitem sku` and the three cost
columns `Piece Cost`, `SKU Cost`, `Line Total Cost`.  `extra` stands for any
further column (e.g. the status columns), which the billing code never
touches. -/
structure Row where
  name : String
  fulfilledAt : Option Int
  qty : Option Nat
  lineitemName : Option String
  sku : Option String
  pieceCost : ℚ
  skuCost : ℚ
  lineTotalCost : ℚ
  extra : Option String
deriving DecidableEq

/-- Placeholder row used with `List.getD`. -/
def dmyRow : Row :=
  { name := "", fulfilledAt := none, qty := none, lineitemName := none,
    sku := none, pieceCost := 0, skuCost := 0, lineTotalCost := 0,
    extra := none }

/-- `pat` occurs in `s` as a contiguous sublist (substring occurrence on the
character lists). -/
def hasSubList (pat : List Char) : List Char → Bool
  | [] => pat.isEmpty
  | c :: cs => pat.isPrefixOf (c :: cs) || hasSubList pat cs

/-- Case-sensitive substring test on strings. -/
def strContains (s pat : String) : Bool := hasSubList pat.data s.data

/-- `~df['Lineitem name'].str.contains("Package protection|Shipping Protection", na=False)`:
a row is billable unless its (present) descriptive name contains one of the two
protection patterns; the regex is an alternation of two literals, i.e. a
case-sensitive substring match against either; a missing name (`na=False`)
counts as billable. -/
def billable (r : Row) : Bool :=
  match r.lineitemName with
  | none => true
  | some s => !(strContains s "Package protection" || strContains s "Shipping Protection")

/-- The billable rows of `pre` belonging to order `nm`: in `calculate_costs`
this is the portion of `group`'s `billable_items` already iterated, which is
what the mutable `seen_skus` / `is_first_billable_item` state summarises. -/
def billableIn (nm : String) (pre : List Row) : List Row :=
  (pre.filter (fun x => decide (x.name = nm))).filter (fun x => billable x)

/-- Cost assignment for one row of `calculate_costs`, given the rows `pre`
that precede it in the table.  A non-billable row keeps the initialisation
`0.0` of the three cost columns.  A billable row gets
`piece = quantity * cost_per_piece` and
`sku = cost_first_sku` if it is the order's first billable item
(`is_first_billable_item` still set, i.e. no earlier billable row of this
order), else `cost_next_sku` if its SKU is not in `seen_skus` (the SKUs of the
earlier billable rows of this order), else `0`. -/
def costRow (cF cN cP : ℚ) (pre : List Row) (r : Row) : Row :=
  if billable r then
    let prevB := billableIn r.name pre
    let piece : ℚ := (r.qty.getD 0 : ℕ) * cP
    let sc : ℚ :=
      if prevB.isEmpty then cF
      else if decide (r.sku ∈ prevB.map (fun x => x.sku)) then 0
      else cN
    { r with pieceCost := piece, skuCost := sc, lineTotalCost := piece + sc }
  else
    { r with pieceCost := 0, skuCost := 0, lineTotalCost := 0 }

/-- The row-by-row loop of `calculate_costs`: `pre` is the list of rows
already processed (the loop state `seen_skus` and `is_first_billable_item` of
each order is a function of `pre`; the iteration order over `groupby('Name')`
groups is immaterial because rows of different orders never interact). -/
def costGo (cF cN cP : ℚ) : List Row → List Row → List Row
  | _, [] => []
  | pre, r :: rs => costRow cF cN cP pre r :: costGo cF cN cP (pre ++ [r]) rs

/-- `calculate_costs(df, cost_first_sku, cost_next_sku, cost_per_piece)`:
adds/overwrites the three cost columns row by row (an empty frame is returned
unchanged, which the general case already covers). -/
def calculate_costs (rows : List Row) (cF cN cP : ℚ) : List Row :=
  costGo cF cN cP [] rows

/-- The `is_total` sort key column of `transform_cost_df_for_reporting`:
`(combined_df['Lineitem name'] == 'TOTAL')`, `0` for item rows and `1` for
TOTAL rows (a missing name compares unequal to `'TOTAL'`). -/
def is_total (r : Row) : Bool := decide (r.lineitemName = some "TOTAL")

/-- Lexicographic comparison of character lists by code point. -/
def strLeB : List Char → List Char → Bool
  | [], _ => true
  | _ :: _, [] => false
  | a :: as, b :: bs =>
    if a.toNat < b.toNat then true
    else if b.toNat < a.toNat then false
    else strLeB as bs

/-- The ascending string order used by pandas when grouping and sorting the
object-dtype `Name` column (Python string `<`, lexicographic by code point). -/
def strLe (a b : String) : Bool := strLeB a.data b.data

/-- Insert `a` into `l` before the first element it is `le`-below. -/
def orderedInsertB {α : Type} (le : α → α → Bool) (a : α) : List α → List α
  | [] => [a]
  | b :: l => if le a b then a :: b :: l else b :: orderedInsertB le a l

/-- Insertion sort by a boolean comparison. -/
def insertionSortB {α : Type} (le : α → α → Bool) : List α → List α
  | [] => []
  | a :: l => orderedInsertB le a (insertionSortB le l)

/-- The distinct order names of `l` in ascending string order: the groups of
`groupby('Name')` and the primary-key order of `sort_values(by=['Name', 'is_total'])`
are both in ascending `Name`-value order. -/
def sortedNames (l : List Row) : List String :=
  insertionSortB strLe ((l.map (fun r => r.name)).dedup)

/-- One row of `totals_df` in `transform_cost_df_for_reporting`: the
`groupby('Name').agg` sums of the three cost columns for order `nm`, with
`Lineitem name` set to `'TOTAL'`; the remaining columns are absent from the
aggregation and become missing after `pd.concat` (the
`fillna(pd.Timestamp.max)` / `replace` round trip on `Fulfilled at` restores
the missing value and never feeds the sort keys, so it is the identity
here). -/
def totalsRow (rows : List Row) (nm : String) : Row :=
  { name := nm, fulfilledAt := none, qty := none,
    lineitemName := some "TOTAL", sku := none,
    pieceCost := ((rows.filter (fun r => decide (r.name = nm))).map (fun r => r.pieceCost)).sum,
    skuCost := ((rows.filter (fun r => decide (r.name = nm))).map (fun r => r.skuCost)).sum,
    lineTotalCost := ((rows.filter (fun r => decide (r.name = nm))).map (fun r => r.lineTotalCost)).sum,
    extra := none }

/-- `transform_cost_df_for_reporting(df_costs)`: append one TOTAL row per
order (`pd.concat([df_costs, totals_df])`) and sort the result with
`sort_values(by=['Name', 'is_total'])`.  A pandas multi-key sort is a stable
lexicographic key sort (`lexsort_indexer`), rendered here as: emit the rows
group by group in ascending key order, each group keeping the input order of
`combined = rows ++ totals`; the secondary key `is_total` only takes the
values `0` and `1`, giving the two filters below. -/
def transform_cost_df_for_reporting (rows : List Row) : List Row :=
  if rows.isEmpty then rows
  else
    let totals := (sortedNames rows).map (totalsRow rows)
    let combined := rows ++ totals
    (sortedNames combined).flatMap (fun nm =>
      combined.filter (fun r => decide (r.name = nm) && !(is_total r))
        ++ combined.filter (fun r => decide (r.name = nm) && is_total r))

/-- One cell of the `Final Invoice` sheet.  The Python dict mixes types within
a column: plain strings (`''`, `'---'`), Python ints (the counts), raw floats
(the first Total Amount entries) and two-decimal `f'{x:.2f}'` renderings of a
float (`fmt2`). -/
inductive Cell where
  | str : String → Cell
  | int : Nat → Cell
  | num : ℚ → Cell
  | fmt2 : ℚ → Cell
deriving DecidableEq

/-- One row of the `Final Invoice` sheet: the `Description`, `Rate`, `Count`
and `Total Amount` columns. -/
structure SummaryRow where
  description : String
  rate : Cell
  count : Cell
  amount : Cell
deriving DecidableEq

/-- Placeholder summary row used with `List.getD`. -/
def dmySummaryRow : SummaryRow :=
  { description := "", rate := Cell.str "", count := Cell.str "", amount := Cell.str "" }

/-- `create_invoice_summary(df_with_costs, ...)`: the nine fixed rows of the
final invoice, computed from the billable subset of the costed table.  The
first-SKU and next-SKU counts compare the `SKU Cost` column against the
tariff values (`(billable_df['SKU Cost'] == cost).sum()`). -/
def create_invoice_summary (rows : List Row) (cF cN cP : ℚ) : List SummaryRow :=
  if rows.isEmpty then []
  else
    let billable_df := rows.filter (fun r => billable r)
    if billable_df.isEmpty then []
    else
      let total_orders := ((billable_df.map (fun r => r.name)).dedup).length
      if total_orders = 0 then []
      else
        let total_pieces := (billable_df.map (fun r => r.qty.getD 0)).sum
        let total_first_skus := billable_df.countP (fun r => decide (r.skuCost = cF))
        let total_next_skus := billable_df.countP (fun r => decide (r.skuCost = cN))
        let total_sku_cost := ((billable_df.map (fun r => r.skuCost)).sum)
        let total_piece_cost := ((billable_df.map (fun r => r.pieceCost)).sum)
        let grand_total := ((billable_df.map (fun r => r.lineTotalCost)).sum)
        [ { description := "Total Orders Processed", rate := Cell.str "",
            count := Cell.int total_orders, amount := Cell.str "" },
          { description := "First SKU Tariff", rate := Cell.fmt2 cF,
            count := Cell.int total_first_skus, amount := Cell.num ((total_first_skus : ℚ) * cF) },
          { description := "Subsequent SKU Tariff", rate := Cell.fmt2 cN,
            count := Cell.int total_next_skus, amount := Cell.num ((total_next_skus : ℚ) * cN) },
          { description := "Per-Piece Tariff", rate := Cell.fmt2 cP,
            count := Cell.int total_pieces, amount := Cell.num ((total_pieces : ℚ) * cP) },
          { description := "---", rate := Cell.str "",
            count := Cell.str "", amount := Cell.str "" },
          { description := "Total SKU Cost", rate := Cell.str "",
            count := Cell.str "", amount := Cell.fmt2 total_sku_cost },
          { description := "Total Piece Cost", rate := Cell.str "",
            count := Cell.str "", amount := Cell.fmt2 total_piece_cost },
          { description := "---", rate := Cell.str "",
            count := Cell.str "", amount := Cell.str "" },
          { description := "GRAND TOTAL", rate := Cell.str "",
            count := Cell.str "", amount := Cell.fmt2 grand_total } ]

/-- The most recent non-null `Fulfilled at` value among the rows of `pre`
with order id `nm`: the value `groupby('Name')['Fulfilled at'].ffill()` fills
a null of that order with. -/
def prevFill (nm : String) (pre : List Row) : Option Int :=
  pre.foldl (fun acc r =>
    if r.name = nm then (match r.fulfilledAt with | some d => some d | none => acc) else acc)
    none

/-- `df.groupby('Name')[col].ffill()` for `col = 'Fulfilled at'`: a null is
replaced by the nearest preceding non-null value of the same order, nulls
with no preceding value stay null.  The source forward-fills the two status
columns the same way; they live in `extra` here and no claim touches them. -/
def ffillDates (rows : List Row) : List Row :=
  rows.enum.map (fun p =>
    match p.2.fulfilledAt with
    | some _ => p.2
    | none => { p.2 with fulfilledAt := prevFill p.2.name (rows.take p.1) })

/-- `filter_by_date_range(df, start_date, end_date)`: forward-fill
`Fulfilled at` within each order, drop rows still null (`dropna`), then keep
rows whose normalised date lies in `[s, e]` inclusive.  Dates are modelled
already parsed at day granularity, so the `pd.to_datetime(errors='coerce')`
step and the second `dropna` are the identity here. -/
def filter_by_date_range (rows : List Row) (s e : Int) : List Row :=
  ((ffillDates rows).filter (fun r => r.fulfilledAt.isSome)).filter
    (fun r =>
      match r.fulfilledAt with
      | some d => decide (s ≤ d) && decide (d ≤ e)
      | none => false)

theorem costRow_name (cF cN cP : ℚ) (pre : List Row) (r : Row) :
    (costRow cF cN cP pre r).name = r.name := by
  unfold costRow; split <;> rfl

theorem costRow_fulfilledAt (cF cN cP : ℚ) (pre : List Row) (r : Row) :
    (costRow cF cN cP pre r).fulfilledAt = r.fulfilledAt := by
  unfold costRow; split <;> rfl

theorem costRow_qty (cF cN cP : ℚ) (pre : List Row) (r : Row) :
    (costRow cF cN cP pre r).qty = r.qty := by
  unfold costRow; split <;> rfl

theorem costRow_lineitemName (cF cN cP : ℚ) (pre : List Row) (r : Row) :
    (costRow cF cN cP pre r).lineitemName = r.lineitemName := by
  unfold costRow; split <;> rfl

theorem costRow_sku (cF cN cP : ℚ) (pre : List Row) (r : Row) :
    (costRow cF cN cP pre r).sku = r.sku := by
  unfold costRow; split <;> rfl

theorem costRow_extra (cF cN cP : ℚ) (pre : List Row) (r : Row) :
    (costRow cF cN cP pre r).extra = r.extra := by
  unfold costRow; split <;> rfl

theorem billable_costRow (cF cN cP : ℚ) (pre : List Row) (r : Row) :
    billable (costRow cF cN cP pre r) = billable r := by
  unfold billable
  rw [costRow_lineitemName]

theorem costGo_length (cF cN cP : ℚ) (pre rows : List Row) :
    (costGo cF cN cP pre rows).length = rows.length := by
  induction rows generalizing pre with
  | nil => rfl
  | cons r rs ih => simp [costGo, ih]

theorem costGo_getElem (cF cN cP : ℚ) (pre rows : List Row) (i : Nat)
    (h : i < rows.length) (h2 : i < (costGo cF cN cP pre rows).length) :
    (costGo cF cN cP pre rows)[i] = costRow cF cN cP (pre ++ rows.take i) (rows[i]) := by
  induction rows generalizing pre i with
  | nil => simp at h
  | cons r rs ih =>
      cases i with
      | zero => simp [costGo]
      | succ j =>
          have hj : j < rs.length := by simpa using h
          simp only [costGo, List.getElem_cons_succ, List.take_succ_cons]
          rw [ih (pre ++ [r]) j hj (by rw [costGo_length]; exact hj)]
          simp

/-- The SKUs of the earlier billable rows of order `nm`: the `seen_skus` set
of the loop (as a list, in insertion order). -/
def skusIn (nm : String) (pre : List Row) : List (Option String) :=
  (billableIn nm pre).map (fun x => x.sku)

theorem isEmpty_map {α β : Type} (f : α → β) (l : List α) :
    (l.map f).isEmpty = l.isEmpty := by
  cases l <;> rfl

theorem skusIn_append (nm : String) (a b : List Row) :
    skusIn nm (a ++ b) = skusIn nm a ++ skusIn nm b := by
  simp [skusIn, billableIn, List.filter_append]

theorem skusIn_of_not_billable (nm : String) (x : Row) (hx : billable x = false) :
    skusIn nm [x] = [] := by
  by_cases hnm : x.name = nm <;>
    simp [skusIn, billableIn, List.filter_singleton, hnm, hx]

theorem costRow_congr (cF cN cP : ℚ) (r : Row) {pre₁ pre₂ : List Row}
    (h : skusIn r.name pre₁ = skusIn r.name pre₂) :
    costRow cF cN cP pre₁ r = costRow cF cN cP pre₂ r := by
  have hemp : (billableIn r.name pre₁).isEmpty = (billableIn r.name pre₂).isEmpty := by
    rw [← isEmpty_map (fun x => x.sku) (billableIn r.name pre₁),
      ← isEmpty_map (fun x => x.sku) (billableIn r.name pre₂)]
    exact congrArg List.isEmpty h
  have hm : (billableIn r.name pre₁).map (fun x => x.sku)
      = (billableIn r.name pre₂).map (fun x => x.sku) := h
  simp only [costRow]
  rw [hemp, hm]

theorem costGo_congr (cF cN cP : ℚ) (rows : List Row) :
    ∀ {pre₁ pre₂ : List Row}, (∀ nm, skusIn nm pre₁ = skusIn nm pre₂) →
      costGo cF cN cP pre₁ rows = costGo cF cN cP pre₂ rows := by
  induction rows with
  | nil => intro pre₁ pre₂ _; rfl
  | cons r rs ih =>
      intro pre₁ pre₂ h
      have h2 : ∀ nm, skusIn nm (pre₁ ++ [r]) = skusIn nm (pre₂ ++ [r]) := by
        intro nm
        simp [skusIn_append, h nm]
      unfold costGo
      rw [costRow_congr cF cN cP r (h r.name), ih h2]

theorem costGo_append (cF cN cP : ℚ) (a b pre : List Row) :
    costGo cF cN cP pre (a ++ b) = costGo cF cN cP pre a ++ costGo cF cN cP (pre ++ a) b := by
  induction a generalizing pre with
  | nil => simp [costGo]
  | cons r rs ih => simp [costGo, ih, List.append_assoc]

theorem billable_update (r : Row) (p s l : ℚ) :
    billable { r with pieceCost := p, skuCost := s, lineTotalCost := l } = billable r := rfl

theorem costRow_pieceCost (cF cN cP : ℚ) (pre : List Row) (r : Row)
    (hb : billable r = true) :
    (costRow cF cN cP pre r).pieceCost = (r.qty.getD 0 : ℚ) * cP := by
  simp [costRow, hb]

theorem costRow_skuCost (cF cN cP : ℚ) (pre : List Row) (r : Row)
    (hb : billable r = true) :
    (costRow cF cN cP pre r).skuCost =
      if billableIn r.name pre = [] then cF
      else if r.sku ∈ (billableIn r.name pre).map (fun x => x.sku) then (0 : ℚ)
      else cN := by
  simp [costRow, hb]

theorem costRow_skuCost_zero (cF cN cP : ℚ) (pre : List Row) (r : Row)
    (hb : billable r = false) :
    (costRow cF cN cP pre r).skuCost = 0 := by
  simp [costRow, hb]

theorem costRow_costRow (cF cN cP : ℚ) (r : Row) (pre : List Row) :
    costRow cF cN cP pre (costRow cF cN cP pre r) = costRow cF cN cP pre r := by
  by_cases hb : billable r = true
  · simp [costRow, billable_update, hb]
  · simp [costRow, billable_update, hb]

theorem costGo_idem (cF cN cP : ℚ) (rows : List Row) :
    ∀ {pre₁ pre₂ : List Row}, (∀ nm, skusIn nm pre₁ = skusIn nm pre₂) →
      costGo cF cN cP pre₂ (costGo cF cN cP pre₁ rows) = costGo cF cN cP pre₁ rows := by
  induction rows with
  | nil => intro pre₁ pre₂ _; rfl
  | cons r rs ih =>
      intro pre₁ pre₂ h
      have hsym : ∀ nm, skusIn nm pre₂ = skusIn nm pre₁ := fun nm => (h nm).symm
      have hone : ∀ nm, skusIn nm [costRow cF cN cP pre₁ r] = skusIn nm [r] := by
        intro nm
        by_cases hnm : r.name = nm
        · cases hbb : billable r <;>
            simp [skusIn, billableIn, List.filter_singleton, billable_costRow,
              costRow_name, costRow_sku, hnm, hbb]
        · simp [skusIn, billableIn, List.filter_singleton, costRow_name, hnm]
      have h2 : ∀ nm, skusIn nm (pre₂ ++ [costRow cF cN cP pre₁ r])
          = skusIn nm (pre₁ ++ [r]) := by
        intro nm
        rw [skusIn_append, skusIn_append, hone nm, hsym nm]
      show costRow cF cN cP pre₂ (costRow cF cN cP pre₁ r)
          :: costGo cF cN cP (pre₂ ++ [costRow cF cN cP pre₁ r]) (costGo cF cN cP (pre₁ ++ [r]) rs)
        = costRow cF cN cP pre₁ r :: costGo cF cN cP (pre₁ ++ [r]) rs
      have hcr : costRow cF cN cP pre₂ (costRow cF cN cP pre₁ r)
          = costRow cF cN cP pre₁ (costRow cF cN cP pre₁ r) :=
        @costRow_congr cF cN cP _ pre₂ pre₁ (by rw [costRow_name]; exact hsym r.name)
      rw [hcr, costRow_costRow, ih (fun nm => (h2 nm).symm)]

/-- Claim C8: the Billing Engine is idempotent — applying `calculate_costs` to
the rows of its own output, with the same tariffs, reproduces that output
exactly (in particular the three cost columns are unchanged; here for all
tariff values, so in particular for non-negative ones). -/
theorem calculate_costs_idem (rows : List Row) (cF cN cP : ℚ) :
    calculate_costs (calculate_costs rows cF cN cP) cF cN cP
      = calculate_costs rows cF cN cP := by
  unfold calculate_costs
  exact costGo_idem cF cN cP rows (fun _ => rfl)

theorem getD_calculate_costs (rows : List Row) (cF cN cP : ℚ) (i : Nat)
    (h : i < rows.length) :
    (calculate_costs rows cF cN cP).getD i dmyRow
      = costRow cF cN cP (rows.take i) (rows.getD i dmyRow) := by
  have h2 : i < (costGo cF cN cP [] rows).length := by
    rw [costGo_length]; exact h
  unfold calculate_costs
  rw [List.getD_eq_getElem _ _ h2, List.getD_eq_getElem _ _ h,
    costGo_getElem cF cN cP [] rows i h h2, List.nil_append]

/-- Claim C9 (frame property of the Billing Engine): `calculate_costs`
returns a table with exactly the same number of rows in the same order, and
every column other than the three cost columns (`Piece Cost`, `SKU Cost`,
`Line Total Cost`) is unchanged on every row. -/
theorem calculate_costs_frame (rows : List Row) (cF cN cP : ℚ) :
    (calculate_costs rows cF cN cP).length = rows.length
    ∧ ∀ i, i < rows.length →
        ((calculate_costs rows cF cN cP).getD i dmyRow).name = (rows.getD i dmyRow).name
        ∧ ((calculate_costs rows cF cN cP).getD i dmyRow).fulfilledAt
            = (rows.getD i dmyRow).fulfilledAt
        ∧ ((calculate_costs rows cF cN cP).getD i dmyRow).qty = (rows.getD i dmyRow).qty
        ∧ ((calculate_costs rows cF cN cP).getD i dmyRow).lineitemName
            = (rows.getD i dmyRow).lineitemName
        ∧ ((calculate_costs rows cF cN cP).getD i dmyRow).sku = (rows.getD i dmyRow).sku
        ∧ ((calculate_costs rows cF cN cP).getD i dmyRow).extra = (rows.getD i dmyRow).extra := by
  constructor
  · unfold calculate_costs; exact costGo_length cF cN cP [] rows
  · intro i h
    rw [getD_calculate_costs rows cF cN cP i h]
    exact ⟨costRow_name _ _ _ _ _, costRow_fulfilledAt _ _ _ _ _, costRow_qty _ _ _ _ _,
      costRow_lineitemName _ _ _ _ _, costRow_sku _ _ _ _ _, costRow_extra _ _ _ _ _⟩

/-- Concrete row used by witnesses: a billable single item of order `#1001`. -/
def wRow1 : Row :=
  { dmyRow with
    name := "#1001", fulfilledAt := some 3, qty := some 1
    lineitemName := some "T-Shirt", sku := some "SKU-TS", extra := some "paid" }

/-- Witness for claim C9 at the one-row table `[wRow1]`, index `0`. -/
theorem calculate_costs_frame_witness :
    (0 < ([wRow1] : List Row).length)
    ∧ ((calculate_costs [wRow1] 1 2 3).getD 0 dmyRow).name = ([wRow1].getD 0 dmyRow).name
    ∧ ((calculate_costs [wRow1] 1 2 3).getD 0 dmyRow).fulfilledAt
        = ([wRow1].getD 0 dmyRow).fulfilledAt
    ∧ ((calculate_costs [wRow1] 1 2 3).getD 0 dmyRow).qty = ([wRow1].getD 0 dmyRow).qty
    ∧ ((calculate_costs [wRow1] 1 2 3).getD 0 dmyRow).lineitemName
        = ([wRow1].getD 0 dmyRow).lineitemName
    ∧ ((calculate_costs [wRow1] 1 2 3).getD 0 dmyRow).sku = ([wRow1].getD 0 dmyRow).sku
    ∧ ((calculate_costs [wRow1] 1 2 3).getD 0 dmyRow).extra = ([wRow1].getD 0 dmyRow).extra :=
  ⟨by decide, (calculate_costs_frame [wRow1] 1 2 3).2 0 (by decide)⟩

theorem mem_take_iff_getD {α : Type} {l : List α} {i : Nat} (hi : i ≤ l.length)
    (d : α) (a : α) :
    a ∈ l.take i ↔ ∃ j, j < i ∧ l.getD j d = a := by
  rw [List.mem_iff_getElem]
  constructor
  · rintro ⟨n, hn, he⟩
    have hlen : (l.take i).length = i := by rw [List.length_take]; omega
    refine ⟨n, by omega, ?_⟩
    rw [List.getD_eq_getElem l d (by omega)]
    rw [List.getElem_take] at he
    exact he
  · rintro ⟨j, hj, he⟩
    have hlen : (l.take i).length = i := by rw [List.length_take]; omega
    refine ⟨j, by omega, ?_⟩
    rw [List.getElem_take]
    rw [List.getD_eq_getElem l d (by omega)] at he
    exact he

theorem mem_billableIn (nm : String) (pre : List Row) (x : Row) :
    x ∈ billableIn nm pre ↔ x ∈ pre ∧ x.name = nm ∧ billable x = true := by
  simp only [billableIn, List.mem_filter, decide_eq_true_eq, and_assoc]

theorem billableIn_take_eq_nil (rows : List Row) (i : Nat) (hi : i ≤ rows.length)
    (nm : String) :
    billableIn nm (rows.take i) = [] ↔
      ¬ ∃ j, j < i ∧ (rows.getD j dmyRow).name = nm
        ∧ billable (rows.getD j dmyRow) = true := by
  rw [List.eq_nil_iff_forall_not_mem]
  constructor
  · rintro h ⟨j, hj, hnm, hbj⟩
    exact h _ ((mem_billableIn nm _ _).2
      ⟨(mem_take_iff_getD hi dmyRow _).2 ⟨j, hj, rfl⟩, hnm, hbj⟩)
  · intro h x hx
    rcases (mem_billableIn nm _ x).1 hx with ⟨hxt, hxnm, hxb⟩
    rcases (mem_take_iff_getD hi dmyRow x).1 hxt with ⟨j, hj, he⟩
    exact h ⟨j, hj, by rw [he]; exact hxnm, by rw [he]; exact hxb⟩

theorem mem_skus_take (rows : List Row) (i : Nat) (hi : i ≤ rows.length)
    (nm : String) (s : Option String) :
    s ∈ (billableIn nm (rows.take i)).map (fun x => x.sku) ↔
      ∃ j, j < i ∧ (rows.getD j dmyRow).name = nm
        ∧ billable (rows.getD j dmyRow) = true ∧ (rows.getD j dmyRow).sku = s := by
  rw [List.mem_map]
  constructor
  · rintro ⟨x, hx, hs⟩
    rcases (mem_billableIn nm _ x).1 hx with ⟨hxt, hxnm, hxb⟩
    rcases (mem_take_iff_getD hi dmyRow x).1 hxt with ⟨j, hj, he⟩
    exact ⟨j, hj, by rw [he]; exact hxnm, by rw [he]; exact hxb, by rw [he]; exact hs⟩
  · rintro ⟨j, hj, hnm, hbj, hs⟩
    exact ⟨rows.getD j dmyRow,
      (mem_billableIn nm _ _).2 ⟨(mem_take_iff_getD hi dmyRow _).2 ⟨j, hj, rfl⟩, hnm, hbj⟩, hs⟩

/-- Claim C2 (tiered SKU pricing): within an order, scanning billable items in
their original relative order, the first billable item is charged the
first-SKU tariff; a later billable item whose SKU did not yet occur among the
order's earlier billable items is charged the next-SKU tariff; a billable
item whose SKU already occurred is charged `0`. -/
theorem calculate_costs_sku_tiering (cF cN cP : ℚ) (rows : List Row) (i : Nat)
    (hi : i < rows.length) (hb : billable (rows.getD i dmyRow) = true) :
    ((¬ ∃ j, j < i ∧ (rows.getD j dmyRow).name = (rows.getD i dmyRow).name
        ∧ billable (rows.getD j dmyRow) = true) →
      ((calculate_costs rows cF cN cP).getD i dmyRow).skuCost = cF)
    ∧ ((∃ j, j < i ∧ (rows.getD j dmyRow).name = (rows.getD i dmyRow).name
        ∧ billable (rows.getD j dmyRow) = true
        ∧ (rows.getD j dmyRow).sku = (rows.getD i dmyRow).sku) →
      ((calculate_costs rows cF cN cP).getD i dmyRow).skuCost = 0)
    ∧ ((∃ j, j < i ∧ (rows.getD j dmyRow).name = (rows.getD i dmyRow).name
          ∧ billable (rows.getD j dmyRow) = true) →
      (¬ ∃ j, j < i ∧ (rows.getD j dmyRow).name = (rows.getD i dmyRow).name
          ∧ billable (rows.getD j dmyRow) = true
          ∧ (rows.getD j dmyRow).sku = (rows.getD i dmyRow).sku) →
      ((calculate_costs rows cF cN cP).getD i dmyRow).skuCost = cN) := by
  rw [getD_calculate_costs rows cF cN cP i hi,
    costRow_skuCost cF cN cP (rows.take i) _ hb]
  refine ⟨?_, ?_, ?_⟩
  · intro h
    rw [if_pos ((billableIn_take_eq_nil rows i hi.le _).2 h)]
  · rintro ⟨j, hj, hnm, hbj, hsku⟩
    have hne : billableIn (rows.getD i dmyRow).name (rows.take i) ≠ [] := fun hnil =>
      ((billableIn_take_eq_nil rows i hi.le _).1 hnil) ⟨j, hj, hnm, hbj⟩
    rw [if_neg hne,
      if_pos ((mem_skus_take rows i hi.le _ _).2 ⟨j, hj, hnm, hbj, hsku⟩)]
  · rintro ⟨j, hj, hnm, hbj⟩ hnex
    have hne : billableIn (rows.getD i dmyRow).name (rows.take i) ≠ [] := fun hnil =>
      ((billableIn_take_eq_nil rows i hi.le _).1 hnil) ⟨j, hj, hnm, hbj⟩
    rw [if_neg hne,
      if_neg (fun hmem => hnex ((mem_skus_take rows i hi.le _ _).1 hmem))]

/-- Concrete rows used by witnesses: order `#1` with billable SKUs A, A, B. -/
def wA1 : Row :=
  { dmyRow with
    name := "#1", qty := some 1, lineitemName := some "Shirt", sku := some "A" }

/-- Second item of order `#1`, repeating SKU A. -/
def wA2 : Row :=
  { dmyRow with
    name := "#1", qty := some 2, lineitemName := some "Shirt Again", sku := some "A" }

/-- Third item of order `#1`, new SKU B. -/
def wB : Row :=
  { dmyRow with
    name := "#1", qty := some 1, lineitemName := some "Mug", sku := some "B" }

/-- Witness for claim C2 on the SKU sequence `[A, A, B]` with tariffs
`first = 5`, `next = 3`: the SKU costs are `[5, 0, 3]` (not `[5, 3, 0]`). -/
theorem calculate_costs_sku_tiering_witness :
    ((calculate_costs [wA1, wA2, wB] 5 3 2).getD 0 dmyRow).skuCost = 5
    ∧ ((calculate_costs [wA1, wA2, wB] 5 3 2).getD 1 dmyRow).skuCost = 0
    ∧ ((calculate_costs [wA1, wA2, wB] 5 3 2).getD 2 dmyRow).skuCost = 3 :=
  ⟨(calculate_costs_sku_tiering 5 3 2 [wA1, wA2, wB] 0 (by decide) (by decide)).1
      (by decide),
   (calculate_costs_sku_tiering 5 3 2 [wA1, wA2, wB] 1 (by decide) (by decide)).2.1
      (by decide),
   (calculate_costs_sku_tiering 5 3 2 [wA1, wA2, wB] 2 (by decide) (by decide)).2.2
      (by decide) (by decide)⟩

/-- Claim C3 (non-billable items): a line item matching a protection pattern
gets piece cost, SKU cost and line total `0`, and has no effect on the
charges of the following rows — inserting it changes nothing downstream
(its SKU is not added to `seen_skus` and it does not consume the
first-billable-item slot), and a missing descriptive name is billable. -/
theorem calculate_costs_nonbillable (cF cN cP : ℚ) (r₁ r₂ : List Row) (x : Row)
    (hx : billable x = false) :
    calculate_costs (r₁ ++ x :: r₂) cF cN cP
      = calculate_costs r₁ cF cN cP
        ++ ({ x with pieceCost := 0, skuCost := 0, lineTotalCost := 0 }
            :: costGo cF cN cP r₁ r₂)
    ∧ calculate_costs (r₁ ++ r₂) cF cN cP
      = calculate_costs r₁ cF cN cP ++ costGo cF cN cP r₁ r₂
    ∧ ∀ y : Row, y.lineitemName = none → billable y = true := by
  have hcongr : costGo cF cN cP (r₁ ++ [x]) r₂ = costGo cF cN cP r₁ r₂ := by
    refine costGo_congr cF cN cP r₂ (fun nm => ?_)
    rw [skusIn_append, skusIn_of_not_billable nm x hx, List.append_nil]
  refine ⟨?_, ?_, ?_⟩
  · unfold calculate_costs
    rw [costGo_append cF cN cP r₁ (x :: r₂) [], List.nil_append]
    show _ = _ ++ (_ :: costGo cF cN cP r₁ r₂)
    rw [← hcongr]
    have hzero : costRow cF cN cP r₁ x
        = { x with pieceCost := 0, skuCost := 0, lineTotalCost := 0 } := by
      simp [costRow, hx]
    rw [show costGo cF cN cP r₁ (x :: r₂)
        = costRow cF cN cP r₁ x :: costGo cF cN cP (r₁ ++ [x]) r₂ from rfl, hzero]
  · unfold calculate_costs
    rw [costGo_append cF cN cP r₁ r₂ [], List.nil_append]
  · intro y hy
    unfold billable
    rw [hy]

/-- Concrete non-billable row: a package-protection line of order `#1`. -/
def wProt : Row :=
  { dmyRow with
    name := "#1", qty := some 1,
    lineitemName := some "Package protection by Route", sku := some "INS-01" }

/-- Witness for claim C3: inserting the protection row `wProt` between the
billable rows `wA1` and `wB` zeroes its costs and leaves the charges of `wB`
exactly as they are without it. -/
theorem calculate_costs_nonbillable_witness :
    billable wProt = false
    ∧ calculate_costs ([wA1] ++ wProt :: [wB]) 5 3 2
      = calculate_costs [wA1] 5 3 2
        ++ ({ wProt with pieceCost := 0, skuCost := 0, lineTotalCost := 0 }
            :: costGo 5 3 2 [wA1] [wB]) :=
  ⟨by decide, (calculate_costs_nonbillable 5 3 2 [wA1] [wB] wProt (by decide)).1⟩

/-- The keys (under `k`) of the billable rows of `l`, in order. -/
def keysOfB {K : Type} (k : Row → K) (l : List Row) : List K :=
  (l.filter (fun r => billable r)).map k

theorem keysOfB_append {K : Type} (k : Row → K) (a b : List Row) :
    keysOfB k (a ++ b) = keysOfB k a ++ keysOfB k b := by
  simp [keysOfB, List.filter_append]

theorem mem_keysOfB {K : Type} (k : Row → K) (l : List Row) (x : K) :
    x ∈ keysOfB k l ↔ ∃ r ∈ l, billable r = true ∧ k r = x := by
  simp [keysOfB, List.mem_map, List.mem_filter, and_assoc]

theorem card_insert_erase {K : Type} [DecidableEq K] (s : Finset K) (a : K) :
    (insert a s).card = (s.erase a).card + 1 := by
  by_cases ha : a ∈ s
  · rw [Finset.card_insert_of_mem ha, Finset.card_erase_add_one ha]
  · rw [Finset.card_insert_of_not_mem ha, Finset.erase_eq_of_not_mem ha]

/-- Core counting invariant of the Billing Engine: scanning the billable rows
in order, the number of output rows satisfying `p` equals the number of
distinct billable keys of `rows` not already present among the billable keys
of the prefix `pre`, whenever `p` holds exactly on rows whose key is new. -/
theorem costGo_count_new (cF cN cP : ℚ) {K : Type} [DecidableEq K] (k : Row → K)
    (p : Row → Bool)
    (hp : ∀ pre r, billable r = true →
        (p (costRow cF cN cP pre r) = true ↔ k r ∉ keysOfB k pre)) :
    ∀ rows pre,
      ((costGo cF cN cP pre rows).filter (fun r => billable r)).countP p
        = ((keysOfB k rows).toFinset \ (keysOfB k pre).toFinset).card := by
  intro rows
  induction rows with
  | nil => intro pre; simp [costGo, keysOfB]
  | cons r rs ih =>
      intro pre
      show ((costRow cF cN cP pre r :: costGo cF cN cP (pre ++ [r]) rs).filter
          (fun r => billable r)).countP p = _
      rw [List.filter_cons]
      cases hb : billable r with
      | false =>
          rw [billable_costRow]
          rw [if_neg (by simp [hb])]
          rw [ih (pre ++ [r])]
          have h1 : keysOfB k (r :: rs) = keysOfB k rs := by
            simp [keysOfB, List.filter_cons, hb]
          have h2 : keysOfB k (pre ++ [r]) = keysOfB k pre := by
            rw [keysOfB_append]
            simp [keysOfB, List.filter_cons, hb]
          rw [h1, h2]
      | true =>
          rw [billable_costRow]
          rw [if_pos (by simp [hb])]
          rw [List.countP_cons, ih (pre ++ [r])]
          have h1 : keysOfB k (r :: rs) = k r :: keysOfB k rs := by
            simp [keysOfB, List.filter_cons, hb]
          have h2 : keysOfB k (pre ++ [r]) = keysOfB k pre ++ [k r] := by
            rw [keysOfB_append]
            simp [keysOfB, List.filter_cons, hb]
          rw [h1, h2]
          simp only [List.toFinset_cons, List.toFinset_append, List.toFinset_nil,
            Finset.union_insert, Finset.union_empty]
          by_cases hmem : k r ∈ keysOfB k pre
          · rw [if_neg (by
              rw [hp pre r hb]
              simp only [not_not]
              exact hmem)]
            rw [Finset.insert_eq_self.2 (List.mem_toFinset.2 hmem),
              Finset.insert_sdiff_of_mem _ (List.mem_toFinset.2 hmem), Nat.add_zero]
          · rw [if_pos (by rw [hp pre r hb]; exact hmem)]
            rw [Finset.sdiff_insert,
              Finset.insert_sdiff_of_not_mem _ (fun hc => hmem (List.mem_toFinset.1 hc)),
              card_insert_erase]

theorem billableIn_eq_nil_iff (nm : String) (pre : List Row) :
    billableIn nm pre = [] ↔ nm ∉ keysOfB (fun r => r.name) pre := by
  rw [List.eq_nil_iff_forall_not_mem]
  constructor
  · intro h hmem
    rcases (mem_keysOfB (fun r => r.name) pre nm).1 hmem with ⟨x, hx, hbx, hnx⟩
    exact h x ((mem_billableIn nm pre x).2 ⟨hx, hnx, hbx⟩)
  · intro h x hx
    rcases (mem_billableIn nm pre x).1 hx with ⟨hxp, hxn, hxb⟩
    exact h ((mem_keysOfB (fun r => r.name) pre nm).2 ⟨x, hxp, hxb, hxn⟩)

theorem sku_mem_iff_pair (nm : String) (s : Option String) (pre : List Row) :
    s ∈ (billableIn nm pre).map (fun x => x.sku)
      ↔ (nm, s) ∈ keysOfB (fun r => (r.name, r.sku)) pre := by
  rw [List.mem_map, mem_keysOfB]
  constructor
  · rintro ⟨x, hx, hs⟩
    rcases (mem_billableIn nm pre x).1 hx with ⟨hxp, hxn, hxb⟩
    exact ⟨x, hxp, hxb, by rw [hxn, hs]⟩
  · rintro ⟨x, hxp, hxb, hpair⟩
    have hn : x.name = nm := congrArg Prod.fst hpair
    have hs : x.sku = s := congrArg Prod.snd hpair
    exact ⟨x, (mem_billableIn nm pre x).2 ⟨hxp, hn, hxb⟩, hs⟩

theorem hp_first (cF cN cP : ℚ) (hF0 : cF ≠ 0) (hFN : cF ≠ cN) :
    ∀ (pre : List Row) (r : Row), billable r = true →
      ((decide ((costRow cF cN cP pre r).skuCost = cF)) = true
        ↔ (fun r => r.name) r ∉ keysOfB (fun r => r.name) pre) := by
  intro pre r hb
  rw [costRow_skuCost cF cN cP pre r hb, decide_eq_true_eq]
  by_cases hnil : billableIn r.name pre = []
  · rw [if_pos hnil]
    simp only [true_iff, iff_true]
    exact (billableIn_eq_nil_iff r.name pre).1 hnil
  · rw [if_neg hnil]
    have hmem : r.name ∈ keysOfB (fun r => r.name) pre := by
      by_contra hcon
      exact hnil ((billableIn_eq_nil_iff r.name pre).2 hcon)
    constructor
    · intro hv
      by_cases hs : r.sku ∈ (billableIn r.name pre).map (fun x => x.sku)
      · rw [if_pos hs] at hv; exact absurd hv.symm hF0
      · rw [if_neg hs] at hv; exact absurd hv.symm hFN
    · intro hcon
      exact absurd hmem hcon

theorem hp_pair (cF cN cP : ℚ) (hF0 : cF ≠ 0) (hN0 : cN ≠ 0) :
    ∀ (pre : List Row) (r : Row), billable r = true →
      ((decide ((costRow cF cN cP pre r).skuCost = cF)
          || decide ((costRow cF cN cP pre r).skuCost = cN)) = true
        ↔ (fun r => (r.name, r.sku)) r ∉ keysOfB (fun r => (r.name, r.sku)) pre) := by
  intro pre r hb
  rw [Bool.or_eq_true, decide_eq_true_eq, decide_eq_true_eq,
    costRow_skuCost cF cN cP pre r hb]
  by_cases hnil : billableIn r.name pre = []
  · rw [if_pos hnil]
    have hnp : (r.name, r.sku) ∉ keysOfB (fun r => (r.name, r.sku)) pre := by
      intro hmem
      have : r.sku ∈ (billableIn r.name pre).map (fun x => x.sku) :=
        (sku_mem_iff_pair r.name r.sku pre).2 hmem
      rw [hnil] at this
      simp at this
    simp [hnp]
  · rw [if_neg hnil]
    by_cases hs : r.sku ∈ (billableIn r.name pre).map (fun x => x.sku)
    · rw [if_pos hs]
      have hmem := (sku_mem_iff_pair r.name r.sku pre).1 hs
      constructor
      · rintro (h0 | h0)
        · exact absurd h0.symm hF0
        · exact absurd h0.symm hN0
      · intro hcon; exact absurd hmem hcon
    · rw [if_neg hs]
      have hnp : (r.name, r.sku) ∉ keysOfB (fun r => (r.name, r.sku)) pre :=
        fun hmem => hs ((sku_mem_iff_pair r.name r.sku pre).2 hmem)
      simp [hnp]

theorem countP_or_disjoint {α : Type} (p q : α → Bool) (l : List α)
    (h : ∀ a, ¬(p a = true ∧ q a = true)) :
    l.countP (fun a => p a || q a) = l.countP p + l.countP q := by
  induction l with
  | nil => rfl
  | cons a l ih =>
      rw [List.countP_cons, List.countP_cons, List.countP_cons, ih]
      by_cases hpa : p a = true
      · have hqa : ¬ q a = true := fun hq => h a ⟨hpa, hq⟩
        simp [hpa, hqa]
        omega
      · by_cases hqa : q a = true
        · simp [hpa, hqa]
          omega
        · simp [hpa, hqa]

theorem keysOfB_costGo (cF cN cP : ℚ) {K : Type} (k : Row → K)
    (hk : ∀ pre r, k (costRow cF cN cP pre r) = k r) :
    ∀ (rows pre : List Row), keysOfB k (costGo cF cN cP pre rows) = keysOfB k rows := by
  intro rows
  induction rows with
  | nil => intro pre; rfl
  | cons r rs ih =>
      intro pre
      show keysOfB k (costRow cF cN cP pre r :: costGo cF cN cP (pre ++ [r]) rs)
        = keysOfB k (r :: rs)
      simp only [keysOfB, List.filter_cons, billable_costRow]
      cases hb : billable r with
      | false =>
          simp only [Bool.false_eq_true, if_false]
          exact ih (pre ++ [r])
      | true =>
          simp only [if_true, List.map_cons, hk pre r]
          rw [show (List.filter (fun r => billable r) (costGo cF cN cP (pre ++ [r]) rs)).map k
              = keysOfB k (costGo cF cN cP (pre ++ [r]) rs) from rfl,
            show (List.filter (fun r => billable r) rs).map k = keysOfB k rs from rfl,
            ih (pre ++ [r])]

theorem create_invoice_summary_getD_counts (rows : List Row) (cF cN cP : ℚ)
    (hne : rows.filter (fun r => billable r) ≠ []) :
    ((create_invoice_summary rows cF cN cP).getD 1 dmySummaryRow).count
      = Cell.int ((rows.filter (fun r => billable r)).countP
          (fun r => decide (r.skuCost = cF)))
    ∧ ((create_invoice_summary rows cF cN cP).getD 2 dmySummaryRow).count
      = Cell.int ((rows.filter (fun r => billable r)).countP
          (fun r => decide (r.skuCost = cN))) := by
  have h0 : rows ≠ [] := by
    intro h
    rw [h] at hne
    exact hne rfl
  have h1 : rows.isEmpty = false := by
    cases rows
    · exact absurd rfl h0
    · rfl
  have h2 : (rows.filter (fun r => billable r)).isEmpty = false := by
    cases hf : rows.filter (fun r => billable r)
    · exact absurd hf hne
    · rfl
  have h3 : ¬(((rows.filter (fun r => billable r)).map (fun r => r.name)).dedup.length = 0) := by
    intro hlen
    rw [List.length_eq_zero, List.dedup_eq_nil, List.map_eq_nil_iff] at hlen
    exact hne hlen
  simp only [create_invoice_summary, h1, h2, Bool.false_eq_true, if_false]
  rw [if_neg h3]
  exact ⟨rfl, rfl⟩

/-- Spec quantity: the number of distinct orders of `l` having at least one
billable line item. -/
def specOrderCount (l : List Row) : Nat :=
  ((l.filter (fun r => billable r)).map (fun r => r.name)).dedup.length

/-- Spec quantity: the number of distinct billable (order id, SKU) pairs of
`l`. -/
def specPairCount (l : List Row) : Nat :=
  ((l.filter (fun r => billable r)).map (fun r => (r.name, r.sku))).dedup.length

theorem first_count_eq (rows : List Row) (cF cN cP : ℚ)
    (hF0 : cF ≠ 0) (hFN : cF ≠ cN) :
    ((calculate_costs rows cF cN cP).filter (fun r => billable r)).countP
        (fun r => decide (r.skuCost = cF))
      = specOrderCount (calculate_costs rows cF cN cP) := by
  have h1 := costGo_count_new cF cN cP (fun r => r.name)
    (fun r => decide (r.skuCost = cF)) (hp_first cF cN cP hF0 hFN) rows []
  have h2 : keysOfB (fun r => r.name) ([] : List Row) = [] := rfl
  rw [h2] at h1
  simp only [List.toFinset_nil, Finset.sdiff_empty] at h1
  unfold calculate_costs
  rw [h1, List.card_toFinset]
  show (keysOfB (fun r => r.name) rows).dedup.length
    = (keysOfB (fun r => r.name) (costGo cF cN cP [] rows)).dedup.length
  rw [keysOfB_costGo cF cN cP (fun r => r.name)
    (fun pre r => costRow_name cF cN cP pre r) rows []]

theorem pair_count_eq (rows : List Row) (cF cN cP : ℚ)
    (hF0 : cF ≠ 0) (hN0 : cN ≠ 0) :
    ((calculate_costs rows cF cN cP).filter (fun r => billable r)).countP
        (fun r => decide (r.skuCost = cF) || decide (r.skuCost = cN))
      = specPairCount (calculate_costs rows cF cN cP) := by
  have h1 := costGo_count_new cF cN cP (fun r => (r.name, r.sku))
    (fun r => decide (r.skuCost = cF) || decide (r.skuCost = cN))
    (hp_pair cF cN cP hF0 hN0) rows []
  have h2 : keysOfB (fun r => (r.name, r.sku)) ([] : List Row) = [] := rfl
  rw [h2] at h1
  simp only [List.toFinset_nil, Finset.sdiff_empty] at h1
  unfold calculate_costs
  rw [h1, List.card_toFinset]
  show (keysOfB (fun r => (r.name, r.sku)) rows).dedup.length
    = (keysOfB (fun r => (r.name, r.sku)) (costGo cF cN cP [] rows)).dedup.length
  rw [keysOfB_costGo cF cN cP (fun r => (r.name, r.sku))
    (fun pre r => by
      show ((costRow cF cN cP pre r).name, (costRow cF cN cP pre r).sku) = (r.name, r.sku)
      rw [costRow_name, costRow_sku]) rows []]

/-- Claim C4, amended: the Invoice Summary's first-SKU and next-SKU counts
are computed by comparing the `SKU Cost` column against the tariff values, so
they equal the spec quantities — first-SKU count = number of distinct orders
with a billable item, next-SKU count = distinct billable (order, SKU) pairs
minus the first-SKU count — when `0`, the first-SKU tariff and the next-SKU
tariff are pairwise distinct (but not for arbitrary tariff settings). -/
theorem create_invoice_summary_sku_counts (rows : List Row) (cF cN cP : ℚ)
    (hF0 : cF ≠ 0) (hN0 : cN ≠ 0) (hFN : cF ≠ cN)
    (hne : (calculate_costs rows cF cN cP).filter (fun r => billable r) ≠ []) :
    ((create_invoice_summary (calculate_costs rows cF cN cP) cF cN cP).getD 1
        dmySummaryRow).count
      = Cell.int (specOrderCount (calculate_costs rows cF cN cP))
    ∧ ((create_invoice_summary (calculate_costs rows cF cN cP) cF cN cP).getD 2
        dmySummaryRow).count
      = Cell.int (specPairCount (calculate_costs rows cF cN cP)
          - specOrderCount (calculate_costs rows cF cN cP))
    ∧ specOrderCount (calculate_costs rows cF cN cP)
        ≤ specPairCount (calculate_costs rows cF cN cP) := by
  obtain ⟨hg1, hg2⟩ :=
    create_invoice_summary_getD_counts (calculate_costs rows cF cN cP) cF cN cP hne
  have hdisj : ∀ r : Row, ¬(decide (r.skuCost = cF) = true ∧ decide (r.skuCost = cN) = true) := by
    rintro r ⟨h1, h2⟩
    rw [decide_eq_true_eq] at h1 h2
    exact hFN (h1 ▸ h2 ▸ rfl)
  have hsum := countP_or_disjoint (fun r => decide (r.skuCost = cF))
    (fun r => decide (r.skuCost = cN))
    ((calculate_costs rows cF cN cP).filter (fun r => billable r)) hdisj
  have hF := first_count_eq rows cF cN cP hF0 hFN
  have hP := pair_count_eq rows cF cN cP hF0 hN0
  rw [hF, hP] at hsum
  have hle : specOrderCount (calculate_costs rows cF cN cP)
      ≤ specPairCount (calculate_costs rows cF cN cP) := by omega
  refine ⟨by rw [hg1, hF], ?_, hle⟩
  rw [hg2]
  have : ((calculate_costs rows cF cN cP).filter (fun r => billable r)).countP
      (fun r => decide (r.skuCost = cN))
      = specPairCount (calculate_costs rows cF cN cP)
        - specOrderCount (calculate_costs rows cF cN cP) := by omega
  rw [this]

/-- Counterexample to claim C4 as stated: with the non-negative tariffs
`first = 0`, `next = 5` and an order with billable SKUs `[A, A]`, both rows
get SKU cost `0`, so the summary's first-SKU count cell is `2`, while the
number of distinct orders with a billable item is `1`. -/
theorem create_invoice_summary_sku_counts_cex :
    ((create_invoice_summary (calculate_costs [wA1, wA2] 0 5 0) 0 5 0).getD 1
        dmySummaryRow).count = Cell.int 2
    ∧ specOrderCount (calculate_costs [wA1, wA2] 0 5 0) = 1
    ∧ Cell.int 2 ≠ Cell.int 1 := by
  refine ⟨by decide, by decide, by decide⟩

/-- Witness for the amended claim C4 at the table `[wA1, wA2, wB]`
(one order, billable SKUs `[A, A, B]`) with pairwise-distinct tariffs
`first = 5`, `next = 3`. -/
theorem create_invoice_summary_sku_counts_witness :
    ((5 : ℚ) ≠ 0 ∧ (3 : ℚ) ≠ 0 ∧ (5 : ℚ) ≠ 3
      ∧ (calculate_costs [wA1, wA2, wB] 5 3 2).filter (fun r => billable r) ≠ [])
    ∧ ((create_invoice_summary (calculate_costs [wA1, wA2, wB] 5 3 2) 5 3 2).getD 1
        dmySummaryRow).count
      = Cell.int (specOrderCount (calculate_costs [wA1, wA2, wB] 5 3 2))
    ∧ ((create_invoice_summary (calculate_costs [wA1, wA2, wB] 5 3 2) 5 3 2).getD 2
        dmySummaryRow).count
      = Cell.int (specPairCount (calculate_costs [wA1, wA2, wB] 5 3 2)
          - specOrderCount (calculate_costs [wA1, wA2, wB] 5 3 2)) :=
  ⟨⟨by decide, by decide, by decide, by decide⟩,
    (create_invoice_summary_sku_counts [wA1, wA2, wB] 5 3 2
      (by decide) (by decide) (by decide) (by decide)).1,
    (create_invoice_summary_sku_counts [wA1, wA2, wB] 5 3 2
      (by decide) (by decide) (by decide) (by decide)).2.1⟩

theorem ffillDates_length (rows : List Row) : (ffillDates rows).length = rows.length := by
  simp [ffillDates]

theorem ffillDates_getElem (rows : List Row) (i : Nat) (h : i < rows.length)
    (h2 : i < (ffillDates rows).length) :
    (ffillDates rows)[i]
      = match (rows[i]).fulfilledAt with
        | some _ => rows[i]
        | none => { rows[i] with fulfilledAt := prevFill (rows[i]).name (rows.take i) } := by
  have he : i < rows.enum.length := by simpa [List.enum_length] using h
  simp only [ffillDates, List.getElem_map, List.getElem_enum]

/-- Claim C6, amended: a line item with an absent fulfillment date is
retained (with the date filled in) precisely on the strength of the nearest
**preceding** non-null date of the same order — if such a preceding value
exists and is in range the row is kept, and every retained row carries an
in-range date, so a null row whose order has dates only on later rows is
dropped. -/
theorem filter_by_date_range_ffill (rows : List Row) (s e : Int) (i : Nat)
    (hi : i < rows.length)
    (hnull : (rows.getD i dmyRow).fulfilledAt = none) :
    (∀ d : Int, prevFill (rows.getD i dmyRow).name (rows.take i) = some d →
      s ≤ d → d ≤ e →
      { rows.getD i dmyRow with fulfilledAt := some d } ∈ filter_by_date_range rows s e)
    ∧ ∀ x ∈ filter_by_date_range rows s e, ∃ d : Int, x.fulfilledAt = some d ∧ s ≤ d ∧ d ≤ e := by
  constructor
  · intro d hfill hs he
    have h2 : i < (ffillDates rows).length := by rw [ffillDates_length]; exact hi
    have hx : (ffillDates rows)[i] = { rows.getD i dmyRow with fulfilledAt := some d } := by
      rw [ffillDates_getElem rows i hi h2]
      rw [List.getD_eq_getElem rows dmyRow hi] at hnull hfill ⊢
      rw [hnull, hfill]
    have hmem : { rows.getD i dmyRow with fulfilledAt := some d } ∈ ffillDates rows := by
      rw [← hx]
      exact List.getElem_mem h2
    unfold filter_by_date_range
    rw [List.mem_filter, List.mem_filter]
    refine ⟨⟨hmem, rfl⟩, ?_⟩
    show (match some d with
      | some d => decide (s ≤ d) && decide (d ≤ e)
      | none => false) = true
    simp [hs, he]
  · intro x hx
    unfold filter_by_date_range at hx
    rw [List.mem_filter] at hx
    rcases hx with ⟨_, hpred⟩
    cases hfa : x.fulfilledAt with
    | none => rw [hfa] at hpred; simp at hpred
    | some d =>
        rw [hfa] at hpred
        simp only [Bool.and_eq_true, decide_eq_true_eq] at hpred
        exact ⟨d, rfl, hpred.1, hpred.2⟩

/-- Concrete row with a missing fulfillment date, order `#9`. -/
def wN1 : Row :=
  { dmyRow with
    name := "#9", qty := some 1, lineitemName := some "Null-date item", sku := some "N" }

/-- Concrete row of order `#9` fulfilled on day 5. -/
def wD1 : Row :=
  { dmyRow with
    name := "#9", fulfilledAt := some 5, qty := some 1
    lineitemName := some "Dated item", sku := some "D" }

/-- Counterexample to claim C6 as stated: the null-date row `wN1` of order
`#9` is dropped even though its order carries the in-range date 5 on a
**later** row — forward fill only looks at preceding rows. -/
theorem filter_by_date_range_cex :
    wN1.fulfilledAt = none
    ∧ wD1.name = wN1.name
    ∧ wD1.fulfilledAt = some 5 ∧ (0 : Int) ≤ 5 ∧ (5 : Int) ≤ 10
    ∧ filter_by_date_range [wN1, wD1] 0 10 = [wD1] := by
  refine ⟨rfl, rfl, rfl, by decide, by decide, by decide⟩

/-- Witness for the amended claim C6: with the dated row first, the null-date
row of the same order is retained with the date filled in. -/
theorem filter_by_date_range_ffill_witness :
    (([wD1, wN1] : List Row).getD 1 dmyRow).fulfilledAt = none
    ∧ prevFill (([wD1, wN1] : List Row).getD 1 dmyRow).name ([wD1, wN1].take 1) = some 5
    ∧ { ([wD1, wN1] : List Row).getD 1 dmyRow with fulfilledAt := some 5 }
        ∈ filter_by_date_range [wD1, wN1] 0 10 :=
  ⟨by decide, by decide,
    (filter_by_date_range_ffill [wD1, wN1] 0 10 1 (by decide) (by decide)).1 5
      (by decide) (by decide) (by decide)⟩

/-- Claim C7, amended: on a non-empty billable input the Invoice Summary has
exactly nine rows with Rate/Count/Total Amount value columns, and the two
separator rows carry the literal `---` in the Description column only — their
Rate, Count and Total Amount cells hold the empty string, not `---`. -/
theorem create_invoice_summary_shape (rows : List Row) (cF cN cP : ℚ)
    (hne : rows.filter (fun r => billable r) ≠ []) :
    (create_invoice_summary rows cF cN cP).length = 9
    ∧ (create_invoice_summary rows cF cN cP).getD 4 dmySummaryRow
        = { description := "---", rate := Cell.str "",
            count := Cell.str "", amount := Cell.str "" }
    ∧ (create_invoice_summary rows cF cN cP).getD 7 dmySummaryRow
        = { description := "---", rate := Cell.str "",
            count := Cell.str "", amount := Cell.str "" } := by
  have h0 : rows ≠ [] := by
    intro h
    rw [h] at hne
    exact hne rfl
  have h1 : rows.isEmpty = false := by
    cases rows
    · exact absurd rfl h0
    · rfl
  have h2 : (rows.filter (fun r => billable r)).isEmpty = false := by
    cases hf : rows.filter (fun r => billable r)
    · exact absurd hf hne
    · rfl
  have h3 : ¬(((rows.filter (fun r => billable r)).map (fun r => r.name)).dedup.length = 0) := by
    intro hlen
    rw [List.length_eq_zero, List.dedup_eq_nil, List.map_eq_nil_iff] at hlen
    exact hne hlen
  simp only [create_invoice_summary, h1, h2, Bool.false_eq_true, if_false]
  rw [if_neg h3]
  exact ⟨rfl, rfl, rfl⟩

/-- Counterexample to claim C7 as stated: the first separator row carries
`---` in its Description column but the empty string — not `---` — in its
Rate value column. -/
theorem create_invoice_summary_separator_cex :
    ((create_invoice_summary [wA1] 5 3 2).getD 4 dmySummaryRow).description = "---"
    ∧ ((create_invoice_summary [wA1] 5 3 2).getD 4 dmySummaryRow).rate = Cell.str ""
    ∧ ((create_invoice_summary [wA1] 5 3 2).getD 4 dmySummaryRow).count = Cell.str ""
    ∧ ((create_invoice_summary [wA1] 5 3 2).getD 4 dmySummaryRow).amount = Cell.str ""
    ∧ Cell.str "" ≠ Cell.str "---" := by
  refine ⟨by decide, by decide, by decide, by decide, by decide⟩

/-- Witness for the amended claim C7 at the one-row billable table `[wA1]`. -/
theorem create_invoice_summary_shape_witness :
    (([wA1] : List Row).filter (fun r => billable r) ≠ [])
    ∧ (create_invoice_summary [wA1] 5 3 2).length = 9
    ∧ (create_invoice_summary [wA1] 5 3 2).getD 7 dmySummaryRow
        = { description := "---", rate := Cell.str "",
            count := Cell.str "", amount := Cell.str "" } :=
  ⟨by decide, (create_invoice_summary_shape [wA1] 5 3 2 (by decide)).1,
    (create_invoice_summary_shape [wA1] 5 3 2 (by decide)).2.2⟩

theorem orderedInsertB_perm {α : Type} (le : α → α → Bool) (a : α) (l : List α) :
    (orderedInsertB le a l).Perm (a :: l) := by
  induction l with
  | nil => exact List.Perm.refl _
  | cons b t ih =>
      unfold orderedInsertB
      by_cases hab : le a b = true
      · rw [if_pos hab]
      · rw [if_neg hab]
        exact ((ih.cons b).trans (List.Perm.swap a b t))

theorem insertionSortB_perm {α : Type} (le : α → α → Bool) (l : List α) :
    (insertionSortB le l).Perm l := by
  induction l with
  | nil => exact List.Perm.refl _
  | cons a t ih =>
      exact (orderedInsertB_perm le a (insertionSortB le t)).trans (ih.cons a)

theorem mem_orderedInsertB {α : Type} (le : α → α → Bool) (a x : α) (l : List α) :
    x ∈ orderedInsertB le a l ↔ x = a ∨ x ∈ l := by
  rw [(orderedInsertB_perm le a l).mem_iff, List.mem_cons]

theorem orderedInsertB_sorted {α : Type} (le : α → α → Bool)
    (htot : ∀ a b, le a b = true ∨ le b a = true)
    (htrans : ∀ a b c, le a b = true → le b c = true → le a c = true)
    (a : α) (l : List α) (hl : l.Pairwise (fun x y => le x y = true)) :
    (orderedInsertB le a l).Pairwise (fun x y => le x y = true) := by
  induction l with
  | nil => simp [orderedInsertB]
  | cons b t ih =>
      rw [List.pairwise_cons] at hl
      rcases hl with ⟨hbt, htp⟩
      unfold orderedInsertB
      by_cases hab : le a b = true
      · rw [if_pos hab]
        rw [List.pairwise_cons]
        refine ⟨?_, List.pairwise_cons.2 ⟨hbt, htp⟩⟩
        intro x hx
        rcases List.mem_cons.1 hx with rfl | hxt
        · exact hab
        · exact htrans a b x hab (hbt x hxt)
      · rw [if_neg hab]
        have hba : le b a = true := by
          rcases htot a b with h | h
          · exact absurd h hab
          · exact h
        rw [List.pairwise_cons]
        refine ⟨?_, ih htp⟩
        intro x hx
        rcases (mem_orderedInsertB le a x t).1 hx with rfl | hxt
        · exact hba
        · exact hbt x hxt

theorem insertionSortB_sorted {α : Type} (le : α → α → Bool)
    (htot : ∀ a b, le a b = true ∨ le b a = true)
    (htrans : ∀ a b c, le a b = true → le b c = true → le a c = true)
    (l : List α) :
    (insertionSortB le l).Pairwise (fun x y => le x y = true) := by
  induction l with
  | nil => simp [insertionSortB]
  | cons a t ih => exact orderedInsertB_sorted le htot htrans a _ ih

theorem strLeB_total (a b : List Char) : strLeB a b = true ∨ strLeB b a = true := by
  induction a generalizing b with
  | nil => left; rfl
  | cons x xs ih =>
      cases b with
      | nil => right; rfl
      | cons y ys =>
          unfold strLeB
          by_cases hxy : x.toNat < y.toNat
          · left; rw [if_pos hxy]
          · by_cases hyx : y.toNat < x.toNat
            · right
              rw [if_pos hyx]
            · rw [if_neg hxy, if_neg hyx, if_neg hyx, if_neg hxy]
              exact ih ys

theorem strLeB_trans (a b c : List Char) (hab : strLeB a b = true)
    (hbc : strLeB b c = true) : strLeB a c = true := by
  induction a generalizing b c with
  | nil => rfl
  | cons x xs ih =>
      cases b with
      | nil => simp [strLeB] at hab
      | cons y ys =>
          cases c with
          | nil => simp [strLeB] at hbc
          | cons z zs =>
              simp only [strLeB] at hab hbc ⊢
              split_ifs at hab hbc ⊢ <;>
                first
                | rfl
                | exact absurd hab Bool.false_ne_true
                | exact absurd hbc Bool.false_ne_true
                | exact ih ys zs hab hbc
                | (exfalso; omega)

theorem strLe_total (a b : String) : strLe a b = true ∨ strLe b a = true :=
  strLeB_total a.data b.data

theorem strLe_trans (a b c : String) (hab : strLe a b = true)
    (hbc : strLe b c = true) : strLe a c = true :=
  strLeB_trans a.data b.data c.data hab hbc

theorem strLe_refl (a : String) : strLe a a = true := by
  show strLeB a.data a.data = true
  induction a.data with
  | nil => rfl
  | cons x xs ih =>
      unfold strLeB
      rw [if_neg (by omega), if_neg (by omega)]
      exact ih

theorem sortedNames_nodup (l : List Row) : (sortedNames l).Nodup :=
  ((insertionSortB_perm strLe _).nodup_iff).2 (List.nodup_dedup _)

theorem mem_sortedNames (l : List Row) (nm : String) :
    nm ∈ sortedNames l ↔ nm ∈ l.map (fun r => r.name) := by
  unfold sortedNames
  rw [(insertionSortB_perm strLe _).mem_iff, List.mem_dedup]

theorem sortedNames_sorted (l : List Row) :
    (sortedNames l).Pairwise (fun a b => strLe a b = true) :=
  insertionSortB_sorted strLe strLe_total strLe_trans _

theorem map_name_totals (rows : List Row) (ks : List String) :
    (ks.map (totalsRow rows)).map (fun r => r.name) = ks := by
  rw [List.map_map]
  show ks.map (fun k => k) = ks
  simp

theorem filter_name_flatMap (B : String → List Row) (ns : List String)
    (hB : ∀ n, ∀ r ∈ B n, r.name = n) (hnd : ns.Nodup) (nm : String) :
    (ns.flatMap B).filter (fun r => decide (r.name = nm))
      = if nm ∈ ns then B nm else [] := by
  induction ns with
  | nil => simp
  | cons n t ih =>
      rcases List.nodup_cons.1 hnd with ⟨hnin, hndt⟩
      show (B n ++ t.flatMap B).filter (fun r => decide (r.name = nm)) = _
      rw [List.filter_append, ih hndt]
      by_cases hn : n = nm
      · subst hn
        rw [List.filter_eq_self.2 (fun r hr => by simp [hB n r hr])]
        rw [if_neg hnin, if_pos (List.mem_cons_self n t), List.append_nil]
      · rw [List.filter_eq_nil_iff.2 (fun r hr => by simp [hB n r hr, hn]),
          List.nil_append]
        by_cases ht : nm ∈ t
        · rw [if_pos ht, if_pos (List.mem_cons.2 (Or.inr ht))]
        · rw [if_neg ht, if_neg (fun hc => by
            rcases List.mem_cons.1 hc with h | h
            · exact hn h.symm
            · exact ht h)]

theorem is_total_totalsRow (rows : List Row) (k : String) :
    is_total (totalsRow rows k) = true := rfl

theorem filter_totals_name (rows : List Row) (ks : List String) (hnd : ks.Nodup)
    (nm : String) :
    (ks.map (totalsRow rows)).filter (fun r => decide (r.name = nm))
      = if nm ∈ ks then [totalsRow rows nm] else [] := by
  induction ks with
  | nil => simp
  | cons k t ih =>
      rcases List.nodup_cons.1 hnd with ⟨hkn, hndt⟩
      simp only [List.map_cons, List.filter_cons]
      by_cases hk : k = nm
      · subst hk
        rw [if_pos (by simp [totalsRow]), ih hndt, if_neg hkn,
          if_pos (List.mem_cons_self k t)]
      · rw [if_neg (by simp [totalsRow, hk]), ih hndt]
        by_cases ht : nm ∈ t
        · rw [if_pos ht, if_pos (List.mem_cons.2 (Or.inr ht))]
        · rw [if_neg ht, if_neg (fun hc => by
            rcases List.mem_cons.1 hc with h | h
            · exact hk h.symm
            · exact ht h)]

theorem transform_block (rows : List Row) (nm : String) :
    (transform_cost_df_for_reporting rows).filter (fun r => decide (r.name = nm))
      = rows.filter (fun r => decide (r.name = nm) && !(is_total r))
        ++ rows.filter (fun r => decide (r.name = nm) && is_total r)
        ++ (if nm ∈ rows.map (fun r => r.name) then [totalsRow rows nm] else []) := by
  by_cases hrows : rows = []
  · subst hrows
    simp [transform_cost_df_for_reporting]
  · have h1 : rows.isEmpty = false := by
      cases rows
      · exact absurd rfl hrows
      · rfl
    have htr : transform_cost_df_for_reporting rows
        = (sortedNames (rows ++ (sortedNames rows).map (totalsRow rows))).flatMap
            (fun x =>
              (rows ++ (sortedNames rows).map (totalsRow rows)).filter
                (fun r => decide (r.name = x) && !(is_total r))
              ++ (rows ++ (sortedNames rows).map (totalsRow rows)).filter
                (fun r => decide (r.name = x) && is_total r)) := by
      simp only [transform_cost_df_for_reporting, h1, Bool.false_eq_true, if_false]
    rw [htr]
    have hB : ∀ n, ∀ r ∈ ((rows ++ (sortedNames rows).map (totalsRow rows)).filter
          (fun r => decide (r.name = n) && !(is_total r))
        ++ (rows ++ (sortedNames rows).map (totalsRow rows)).filter
          (fun r => decide (r.name = n) && is_total r)), r.name = n := by
      intro n r hr
      rcases List.mem_append.1 hr with h | h <;>
      · have h2 := (List.mem_filter.1 h).2
        rw [Bool.and_eq_true, decide_eq_true_eq] at h2
        exact h2.1
    rw [filter_name_flatMap _ _ hB (sortedNames_nodup _) nm]
    have hmemiff : nm ∈ sortedNames (rows ++ (sortedNames rows).map (totalsRow rows))
        ↔ nm ∈ rows.map (fun r => r.name) := by
      rw [mem_sortedNames, List.map_append, map_name_totals, List.mem_append]
      exact ⟨fun h => h.elim id (mem_sortedNames rows nm).1, Or.inl⟩
    by_cases hmem : nm ∈ rows.map (fun r => r.name)
    · rw [if_pos (hmemiff.2 hmem), if_pos hmem]
      rw [List.filter_append, List.filter_append]
      have hf0 : ((sortedNames rows).map (totalsRow rows)).filter
          (fun r => decide (r.name = nm) && !(is_total r)) = [] := by
        rw [List.filter_eq_nil_iff]
        intro r hr
        rcases List.mem_map.1 hr with ⟨k, _, rfl⟩
        simp [is_total_totalsRow]
      have hf1 : ((sortedNames rows).map (totalsRow rows)).filter
          (fun r => decide (r.name = nm) && is_total r)
          = [totalsRow rows nm] := by
        rw [List.filter_congr (fun r hr => ?_), filter_totals_name rows _
          (sortedNames_nodup rows) nm]
        · rw [if_pos ((mem_sortedNames rows nm).2 hmem)]
        · rcases List.mem_map.1 hr with ⟨k, _, rfl⟩
          rw [is_total_totalsRow, Bool.and_true]
      rw [hf0, hf1, List.append_nil]
      exact (List.append_assoc _ _ _).symm
    · rw [if_neg (fun h => hmem (hmemiff.1 h)), if_neg hmem]
      have hr0 : rows.filter (fun r => decide (r.name = nm) && !(is_total r)) = [] := by
        rw [List.filter_eq_nil_iff]
        intro r hr hc
        rw [Bool.and_eq_true, decide_eq_true_eq] at hc
        exact hmem (List.mem_map.2 ⟨r, hr, hc.1⟩)
      have hr1 : rows.filter (fun r => decide (r.name = nm) && is_total r) = [] := by
        rw [List.filter_eq_nil_iff]
        intro r hr hc
        rw [Bool.and_eq_true, decide_eq_true_eq] at hc
        exact hmem (List.mem_map.2 ⟨r, hr, hc.1⟩)
      rw [hr0, hr1]
      simp

theorem filter_name_not_total (rows : List Row) (nm : String) :
    (rows.filter (fun r => decide (r.name = nm))).filter (fun r => !(is_total r))
      = rows.filter (fun r => decide (r.name = nm) && !(is_total r)) := by
  rw [List.filter_filter]
  exact List.filter_congr (fun x _ => Bool.and_comm _ _)

theorem filter_name_total (rows : List Row) (nm : String) :
    (rows.filter (fun r => decide (r.name = nm))).filter (fun r => is_total r)
      = rows.filter (fun r => decide (r.name = nm) && is_total r) := by
  rw [List.filter_filter]
  exact List.filter_congr (fun x _ => Bool.and_comm _ _)

theorem filter_split_total_perm (F : List Row) :
    (F.filter (fun r => !(is_total r)) ++ F.filter (fun r => is_total r)).Perm F := by
  have h := List.filter_append_perm (fun r => !(is_total r)) F
  have he : F.filter (fun x => !(!(is_total x))) = F.filter (fun r => is_total r) :=
    List.filter_congr (fun x _ => by rw [Bool.not_not])
  rw [he] at h
  exact h

theorem pairwise_const {α : Type} {R : α → α → Prop} {l : List α} {n : α}
    (h : ∀ x ∈ l, x = n) (hrefl : R n n) : l.Pairwise R := by
  induction l with
  | nil => exact List.Pairwise.nil
  | cons a t ih =>
      rw [List.pairwise_cons]
      refine ⟨fun b hb => ?_, ih (fun x hx => h x (List.mem_cons.2 (Or.inr hx)))⟩
      rw [h a (List.mem_cons_self a t), h b (List.mem_cons.2 (Or.inr hb))]
      exact hrefl

theorem pairwise_map_name_flatMap (B : String → List Row) (ns : List String)
    (hsort : ns.Pairwise (fun a b => strLe a b = true))
    (hB : ∀ n, ∀ r ∈ B n, r.name = n) :
    ((ns.flatMap B).map (fun r => r.name)).Pairwise (fun a b => strLe a b = true) := by
  induction ns with
  | nil => exact List.Pairwise.nil
  | cons n t ih =>
      rcases List.pairwise_cons.1 hsort with ⟨hrel, htp⟩
      show (((B n) ++ t.flatMap B).map (fun r => r.name)).Pairwise _
      rw [List.map_append, List.pairwise_append]
      refine ⟨?_, ih htp, ?_⟩
      · refine pairwise_const (fun x hx => ?_) (strLe_refl n)
        rcases List.mem_map.1 hx with ⟨r, hr, rfl⟩
        exact hB n r hr
      · intro a ha b hb
        rcases List.mem_map.1 ha with ⟨r, hr, rfl⟩
        rcases List.mem_map.1 hb with ⟨q, hq, rfl⟩
        rcases List.mem_flatMap.1 hq with ⟨k, hk, hqk⟩
        rw [hB n r hr, hB k q hqk]
        exact hrel k hk

theorem transform_names_sorted (rows : List Row) :
    ((transform_cost_df_for_reporting rows).map (fun r => r.name)).Pairwise
      (fun a b => strLe a b = true) := by
  by_cases hrows : rows = []
  · subst hrows
    exact List.Pairwise.nil
  · have h1 : rows.isEmpty = false := by
      cases rows
      · exact absurd rfl hrows
      · rfl
    have htr : transform_cost_df_for_reporting rows
        = (sortedNames (rows ++ (sortedNames rows).map (totalsRow rows))).flatMap
            (fun x =>
              (rows ++ (sortedNames rows).map (totalsRow rows)).filter
                (fun r => decide (r.name = x) && !(is_total r))
              ++ (rows ++ (sortedNames rows).map (totalsRow rows)).filter
                (fun r => decide (r.name = x) && is_total r)) := by
      simp only [transform_cost_df_for_reporting, h1, Bool.false_eq_true, if_false]
    rw [htr]
    refine pairwise_map_name_flatMap _ _ (sortedNames_sorted _) ?_
    intro n r hr
    rcases List.mem_append.1 hr with h | h <;>
    · have h2 := (List.mem_filter.1 h).2
      rw [Bool.and_eq_true, decide_eq_true_eq] at h2
      exact h2.1

theorem flatMap_contiguous (B : String → List Row) (ns : List String)
    (hB : ∀ n, ∀ r ∈ B n, r.name = n) (hnd : ns.Nodup) (nm : String)
    (hmem : nm ∈ ns) :
    ∃ l₁ l₂, ns.flatMap B
        = l₁ ++ ((ns.flatMap B).filter (fun r => decide (r.name = nm))) ++ l₂
      ∧ (∀ r ∈ l₁, r.name ≠ nm) ∧ (∀ r ∈ l₂, r.name ≠ nm) := by
  have hfilter := filter_name_flatMap B ns hB hnd nm
  rcases List.append_of_mem hmem with ⟨s, t, hst⟩
  subst hst
  rcases List.nodup_append.1 hnd with ⟨hnds, hndnt, hdisj⟩
  have hnm_s : nm ∉ s := fun hc => hdisj hc (List.mem_cons_self nm t)
  have hnm_t : nm ∉ t := (List.nodup_cons.1 hndnt).1
  refine ⟨s.flatMap B, t.flatMap B, ?_, ?_, ?_⟩
  · rw [hfilter, if_pos hmem, List.flatMap_append, List.flatMap_cons,
      List.append_assoc]
  · intro r hr
    rcases List.mem_flatMap.1 hr with ⟨k, hk, hrk⟩
    rw [hB k r hrk]
    intro hkeq
    exact hnm_s (hkeq ▸ hk)
  · intro r hr
    rcases List.mem_flatMap.1 hr with ⟨k, hk, hrk⟩
    rw [hB k r hrk]
    intro hkeq
    exact hnm_t (hkeq ▸ hk)

theorem transform_contiguous (rows : List Row) (nm : String)
    (hmem : nm ∈ rows.map (fun r => r.name)) :
    ∃ l₁ l₂, transform_cost_df_for_reporting rows
        = l₁ ++ ((transform_cost_df_for_reporting rows).filter
            (fun r => decide (r.name = nm))) ++ l₂
      ∧ (∀ r ∈ l₁, r.name ≠ nm) ∧ (∀ r ∈ l₂, r.name ≠ nm) := by
  have hrows : rows ≠ [] := by
    intro h
    rw [h] at hmem
    exact absurd hmem (List.not_mem_nil nm)
  have h1 : rows.isEmpty = false := by
    cases rows
    · exact absurd rfl hrows
    · rfl
  have htr : transform_cost_df_for_reporting rows
      = (sortedNames (rows ++ (sortedNames rows).map (totalsRow rows))).flatMap
          (fun x =>
            (rows ++ (sortedNames rows).map (totalsRow rows)).filter
              (fun r => decide (r.name = x) && !(is_total r))
            ++ (rows ++ (sortedNames rows).map (totalsRow rows)).filter
              (fun r => decide (r.name = x) && is_total r)) := by
    simp only [transform_cost_df_for_reporting, h1, Bool.false_eq_true, if_false]
  have hB : ∀ n, ∀ r ∈ ((rows ++ (sortedNames rows).map (totalsRow rows)).filter
        (fun r => decide (r.name = n) && !(is_total r))
      ++ (rows ++ (sortedNames rows).map (totalsRow rows)).filter
        (fun r => decide (r.name = n) && is_total r)), r.name = n := by
    intro n r hr
    rcases List.mem_append.1 hr with h | h <;>
    · have h2 := (List.mem_filter.1 h).2
      rw [Bool.and_eq_true, decide_eq_true_eq] at h2
      exact h2.1
  have hmem' : nm ∈ sortedNames (rows ++ (sortedNames rows).map (totalsRow rows)) := by
    rw [mem_sortedNames, List.map_append]
    exact List.mem_append.2 (Or.inl hmem)
  rw [htr]
  exact flatMap_contiguous _ _ hB (sortedNames_nodup _) nm hmem'

/-- Claim C5, amended: the Order Total Transform is a stable two-key sort
whose secondary key is the 0/1 `is_total` flag, but whose primary key orders
the distinct order ids in **ascending string order** (pandas
`sort_values(by=['Name', 'is_total'])` sorts by the value of `Name`), not by
first appearance in the input: the output's order-id column is
non-decreasing, and each order's block is its original non-TOTAL rows in
input order, then its original TOTAL-named rows in input order, then the
synthetic TOTAL row. -/
theorem transform_sort_structure (rows : List Row) :
    List.Sorted (fun a b => strLe a b = true)
      ((transform_cost_df_for_reporting rows).map (fun r => r.name))
    ∧ ∀ nm, (transform_cost_df_for_reporting rows).filter (fun r => decide (r.name = nm))
        = (rows.filter (fun r => decide (r.name = nm))).filter (fun r => !(is_total r))
          ++ (rows.filter (fun r => decide (r.name = nm))).filter (fun r => is_total r)
          ++ (if nm ∈ rows.map (fun r => r.name) then [totalsRow rows nm] else []) := by
  refine ⟨transform_names_sorted rows, fun nm => ?_⟩
  rw [filter_name_not_total, filter_name_total]
  exact transform_block rows nm

/-- Rows of orders `B` and `A`, in that input order, for the C5
counterexample. -/
def wOrdB : Row :=
  { dmyRow with
    name := "B", qty := some 1, lineitemName := some "ItemB", sku := some "SB" }

/-- Second row for the C5 counterexample, order `A` appearing after `B`. -/
def wOrdA : Row :=
  { dmyRow with
    name := "A", qty := some 1, lineitemName := some "ItemA", sku := some "SA" }

/-- Counterexample to claim C5 as stated: on an input whose order ids first
appear in the order `B`, `A`, the transform emits the `A` block before the
`B` block — the blocks are in ascending order-id value order, not first-seen
order. -/
theorem transform_block_order_cex :
    ([wOrdB, wOrdA] : List Row).map (fun r => r.name) = ["B", "A"]
    ∧ (transform_cost_df_for_reporting [wOrdB, wOrdA]).map (fun r => r.name)
        = ["A", "A", "B", "B"]
    ∧ (["A", "A", "B", "B"] : List String) ≠ ["B", "B", "A", "A"] := by
  refine ⟨by decide, by decide, by decide⟩

/-- Claim C1: for every order id occurring in the input (with N ≥ 1 rows,
N = 1 included), the Order Total Transform emits exactly N + 1 rows for that
order, the rows of the order form one contiguous block, the block's last row
is the synthetic TOTAL row, and no original row is overwritten or dropped
(the block is a permutation of the original rows plus the TOTAL row). -/
theorem transform_order_rowcount (rows : List Row) (nm : String)
    (hN : 0 < (rows.filter (fun r => decide (r.name = nm))).length) :
    ((transform_cost_df_for_reporting rows).filter (fun r => decide (r.name = nm))).length
      = (rows.filter (fun r => decide (r.name = nm))).length + 1
    ∧ ((transform_cost_df_for_reporting rows).filter (fun r => decide (r.name = nm))).getLast?
        = some (totalsRow rows nm)
    ∧ ((rows.filter (fun r => decide (r.name = nm))) ++ [totalsRow rows nm]).Perm
        ((transform_cost_df_for_reporting rows).filter (fun r => decide (r.name = nm)))
    ∧ ∃ l₁ l₂, transform_cost_df_for_reporting rows
          = l₁ ++ ((transform_cost_df_for_reporting rows).filter
              (fun r => decide (r.name = nm))) ++ l₂
        ∧ (∀ r ∈ l₁, r.name ≠ nm) ∧ (∀ r ∈ l₂, r.name ≠ nm) := by
  have hmem : nm ∈ rows.map (fun r => r.name) := by
    have hne : rows.filter (fun r => decide (r.name = nm)) ≠ [] := by
      intro h
      rw [h] at hN
      exact absurd hN (lt_irrefl 0)
    rcases List.exists_mem_of_ne_nil _ hne with ⟨x, hx⟩
    rcases List.mem_filter.1 hx with ⟨hxr, hxn⟩
    rw [decide_eq_true_eq] at hxn
    exact List.mem_map.2 ⟨x, hxr, hxn⟩
  have hblock := transform_block rows nm
  rw [if_pos hmem, ← filter_name_not_total, ← filter_name_total] at hblock
  have hperm := filter_split_total_perm (rows.filter (fun r => decide (r.name = nm)))
  refine ⟨?_, ?_, ?_, transform_contiguous rows nm hmem⟩
  · rw [hblock, List.length_append, hperm.length_eq]
    rfl
  · rw [hblock]
    exact List.getLast?_concat _
  · rw [hblock]
    exact (hperm.symm).append_right [totalsRow rows nm]

/-- Witness for claim C1 at the single-item order `[wA1]` (the N = 1
regression case): the transform yields a two-row block whose last row is the
synthetic TOTAL row. -/
theorem transform_order_rowcount_witness :
    0 < (([wA1] : List Row).filter (fun r => decide (r.name = "#1"))).length
    ∧ ((transform_cost_df_for_reporting [wA1]).filter
        (fun r => decide (r.name = "#1"))).length
      = (([wA1] : List Row).filter (fun r => decide (r.name = "#1"))).length + 1
    ∧ ((transform_cost_df_for_reporting [wA1]).filter
        (fun r => decide (r.name = "#1"))).getLast? = some (totalsRow [wA1] "#1") :=
  ⟨by decide, (transform_order_rowcount [wA1] "#1" (by decide)).1,
    (transform_order_rowcount [wA1] "#1" (by decide)).2.1⟩

/-- Claim C10, amended: TOTAL-row classification is solely by the
descriptive-name field being exactly `TOTAL`, and an original item named
`TOTAL` is sorted into the trailing flagged region of its order's block,
ahead of the synthetic row; but because the stable sort keeps the synthetic
row (concatenated after all originals) last among the flagged rows, the
block's last row is the synthetic summary row unconditionally — the guarantee
does **not** require the precondition that no input item is named `TOTAL`. -/
theorem transform_total_named (rows : List Row) (nm : String)
    (hmem : nm ∈ rows.map (fun r => r.name)) :
    (transform_cost_df_for_reporting rows).filter (fun r => decide (r.name = nm))
      = (rows.filter (fun r => decide (r.name = nm))).filter (fun r => !(is_total r))
        ++ (rows.filter (fun r => decide (r.name = nm))).filter (fun r => is_total r)
        ++ [totalsRow rows nm]
    ∧ ((transform_cost_df_for_reporting rows).filter (fun r => decide (r.name = nm))).getLast?
        = some (totalsRow rows nm)
    ∧ ∀ r : Row, is_total r = true ↔ r.lineitemName = some "TOTAL" := by
  have hblock := transform_block rows nm
  rw [if_pos hmem, ← filter_name_not_total, ← filter_name_total] at hblock
  refine ⟨hblock, ?_, ?_⟩
  · rw [hblock]
    exact List.getLast?_concat _
  · intro r
    unfold is_total
    rw [decide_eq_true_eq]

/-- An original line item of order `#7` whose descriptive name is the literal
`TOTAL`. -/
def wTot : Row :=
  { dmyRow with
    name := "#7", qty := some 1, lineitemName := some "TOTAL", sku := some "T" }

/-- An ordinary line item of order `#7`. -/
def wItem : Row :=
  { dmyRow with
    name := "#7", qty := some 2, lineitemName := some "Widget", sku := some "W" }

/-- Counterexample to claim C10 as stated: with an original item named
`TOTAL` (precondition violated), that item is displaced to the trailing
region of the block, yet the block's last row is still the synthetic summary
row — the last-row guarantee does not hold "only" under the claimed
precondition. -/
theorem transform_total_named_cex :
    is_total wTot = true
    ∧ transform_cost_df_for_reporting [wTot, wItem]
        = [wItem, wTot, totalsRow [wTot, wItem] "#7"]
    ∧ wTot.sku = some "T"
    ∧ (totalsRow [wTot, wItem] "#7").sku = none
    ∧ (transform_cost_df_for_reporting [wTot, wItem]).getLast?
        = some (totalsRow [wTot, wItem] "#7")
    ∧ ((transform_cost_df_for_reporting [wTot, wItem]).filter
        (fun r => decide (r.name = "#7"))).length = 3 :=
  ⟨rfl, rfl, rfl, rfl, rfl, by decide⟩

/-- Witness for the amended claim C10 at `[wTot, wItem]`: order `#7` occurs,
and the last row of its block is the synthetic TOTAL row. -/
theorem transform_total_named_witness :
    "#7" ∈ ([wTot, wItem] : List Row).map (fun r => r.name)
    ∧ ((transform_cost_df_for_reporting [wTot, wItem]).filter
        (fun r => decide (r.name = "#7"))).getLast?
      = some (totalsRow [wTot, wItem] "#7") :=
  ⟨by decide, (transform_total_named [wTot, wItem] "#7" (by decide)).2.1⟩
